import Mathlib

/-!
# Verification of gnav (GNOME workspace navigator)

Shallow embedding of `main.go`: the persisted workspace-name list (`cfg.Names`),
the workspace operations (`renameLocal`, `createWorkspaces`, `switchWorkspace`),
the probe output parsing (`getSystemWorkspaceCount`), the wofi selection parser
(`parseWofiSelection`), the wofi rendering loop (`wofiIntegration`), the TUI
reorder handlers, and a model of the YAML config serialization.

External processes (wmctrl, gsettings, wofi) and the file write are modelled by
an explicit effect trace: each operation returns, besides its result, the list
of external effects it issues.  Go `int` indices are embedded as `Int` so that
the `index < 1` validation covers zero and negative inputs; list positions use
`Nat` after validation.
-/

namespace Gnav

/-- External side effects issued by the operations: a config-file write with
the serialized name list, the `wmctrl -d` probe spawned by
`getSystemWorkspaceCount`, the `wmctrl -s target` switch call, and the two
gsettings writes performed by `createWorkspaces`. -/
inductive Effect where
  | saveFile (names : List String) : Effect
  | probeCount : Effect
  | execSwitch (target : Nat) : Effect
  | gsetNumWorkspaces (n : Nat) : Effect
  | gsetDynamicOff : Effect
  deriving DecidableEq, Repr

/-- Structured error values, one per `errors.New` / `fmt.Errorf` site the
claims touch in `main.go`. -/
inductive Err where
  | invalidIndex : Err
  | invalidCount : Err
  | externalTool : Err
  | noInput : Err
  | emptyInput : Err
  | invalidFormat : Err
  | atoiSyntax : Err
  deriving DecidableEq, Repr

/-- `fmt.Sprintf("Workspace %d", k)`: the synthesized default name for
workspace number `k` (1-based). -/
def defaultName (k : Nat) : String :=
  "Workspace " ++ toString k

/-- The padding loop shared by `renameLocal` and `createWorkspaces`
(src/main.go:113-115 and 135-137):
`for len(cfg.Names) < n { cfg.Names = append(cfg.Names, fmt.Sprintf("Workspace %d", len(cfg.Names)+1)) }`. -/
def padNames (names : List String) (n : Nat) : List String :=
  if names.length < n then
    padNames (names ++ [defaultName (names.length + 1)]) n
  else
    names
termination_by n - names.length
decreasing_by simp; omega

/-- `renameLocal(index, newName)` (src/main.go:109-118): validates
`index >= 1`, pads the stored list up to `index`, overwrites slot `index-1`,
then saves.  Returns the result, the final in-memory name list, and the
effect trace (empty on the validation rejection, which happens before any
mutation or write). -/
def renameLocal (names : List String) (index : Int) (newName : String) :
    Except Err Unit × List String × List Effect :=
  if index < 1 then
    (.error .invalidIndex, names, [])
  else
    let updated := (padNames names index.toNat).set (index.toNat - 1) newName
    (.ok (), updated, [Effect.saveFile updated])

/-- `switchWorkspace(idx)` (src/main.go:101-107): validates `idx >= 1`, then
invokes `wmctrl -s (idx-1)` and surfaces that call's outcome (`runOk` is
whether `cmd.Run()` succeeded). -/
def switchWorkspace (idx : Int) (runOk : Bool) : Except Err Unit × List Effect :=
  if idx < 1 then
    (.error .invalidIndex, [])
  else
    ((if runOk then .ok () else .error .externalTool),
     [Effect.execSwitch (idx.toNat - 1)])

/-- `createWorkspaces(num)` (src/main.go:120-139): validates `num >= 1`, then
probes the system workspace count (`probe` is the outcome of that `wmctrl -d`
call, surfaced on failure); if `num > sc` it issues the two gsettings writes,
whose run outcomes `w1 w2` the Go code discards
(`_ = exec.Command(...).Run()`); then pads the stored list up to `num` and
saves. -/
def createWorkspaces (names : List String) (num : Int)
    (probe : Except Err Nat) (w1 w2 : Bool) :
    Except Err Unit × List String × List Effect :=
  if num < 1 then
    (.error .invalidCount, names, [])
  else
    match probe with
    | .error e => (.error e, names, [Effect.probeCount])
    | .ok sc =>
      let settingsEffs : List Effect :=
        if num.toNat > sc then
          [Effect.gsetNumWorkspaces num.toNat, Effect.gsetDynamicOff]
        else
          []
      let _ := w1
      let _ := w2
      let updated := padNames names num.toNat
      (.ok (), updated, Effect.probeCount :: settingsEffs ++ [Effect.saveFile updated])

/-- The ASCII cases of Go `unicode.IsSpace`, as used by `strings.TrimSpace`.
The probe and selection texts the claims concern are ASCII. -/
def goIsSpace (c : Char) : Bool :=
  c = ' ' || c = '\t' || c = '\n' || c = '\r' || c = Char.ofNat 11 || c = Char.ofNat 12

/-- `strings.TrimSpace` on a character list: drop leading and trailing
whitespace. -/
def trimChars (l : List Char) : List Char :=
  ((l.dropWhile goIsSpace).reverse.dropWhile goIsSpace).reverse

/-- `strings.TrimSpace`. -/
def goTrimSpace (s : String) : String :=
  String.mk (trimChars s.data)

/-- `strings.Split(s, sep)` for a one-character separator: Go `Split` always
returns at least one piece, `[""]` on empty input. -/
def splitOnChar (sep : Char) : List Char → List (List Char)
  | [] => [[]]
  | c :: cs =>
    if c = sep then
      [] :: splitOnChar sep cs
    else
      match splitOnChar sep cs with
      | [] => [[c]]
      | h :: t => (c :: h) :: t

/-- `strings.SplitN(s, sep, 2)` for a one-character separator, as the pair
around the first occurrence; `none` when the separator is absent (Go then
returns the single piece `[s]`, i.e. `len(parts) < 2`). -/
def splitFirst (sep : Char) : List Char → Option (List Char × List Char)
  | [] => none
  | c :: cs =>
    if c = sep then
      some ([], cs)
    else
      match splitFirst sep cs with
      | none => none
      | some (a, b) => some (c :: a, b)

/-- Value of a digit string under `strconv.Atoi`'s accumulation. -/
def digitsVal (l : List Char) : Nat :=
  l.foldl (fun a c => a * 10 + (c.toNat - 48)) 0

/-- `strconv.Atoi` core: one or more ASCII digits. -/
def atoiDigits (ds : List Char) : Except Err Nat :=
  if ds ≠ [] ∧ ds.all (fun c => c.isDigit) then
    .ok (digitsVal ds)
  else
    .error .atoiSyntax

/-- `strconv.Atoi`: optional sign then digits (overflow ignored: the embedding
uses unbounded `Int`). -/
def goAtoi (s : String) : Except Err Int :=
  match s.data with
  | '+' :: rest => (atoiDigits rest).map (fun n => (n : Int))
  | '-' :: rest => (atoiDigits rest).map (fun n => -(n : Int))
  | l => (atoiDigits l).map (fun n => (n : Int))

/-- `getSystemWorkspaceCount` (src/main.go:60-67) as a function of the stdout
text of a successful `wmctrl -d` run:
`len(strings.Split(strings.TrimSpace(string(out)), "\n"))`. -/
def getSystemWorkspaceCount (out : String) : Nat :=
  (splitOnChar '\n' (goTrimSpace out).data).length

/-- The parsing part of `parseWofiSelection` (src/main.go:179-190): trim the
line, reject empty input, split on the first colon, trim the index token and
parse it as an integer.  (The stdin read before it and the
`switchWorkspace` call after it are outside this pure fragment.) -/
def parseSelection (line : String) : Except Err Int :=
  let t := trimChars line.data
  if t = [] then
    .error .emptyInput
  else
    match splitFirst ':' t with
    | none => .error .invalidFormat
    | some (idxTok, _) => goAtoi (String.mk (trimChars idxTok))

/-- The ASCII apostrophe, as a string building block for the markup
wrapper. -/
def apos : String :=
  String.mk [Char.ofNat 39]

/-- The merged display label of row `i` (src/main.go:155-164): the stored
name when `i` is in range of the list, else the synthesized default; when the
dynamic flag is set and `i` is the last row, overridden to the sentinel. -/
def mergedLabel (names : List String) (dyn : Bool) (sc i : Nat) : String :=
  let nm := if h : i < names.length then names.get ⟨i, h⟩ else defaultName (i + 1)
  if dyn && i == sc - 1 then "New Workspace" else nm

/-- The fuzzy-finder feed line `"%d: %s"` with the 1-based index. -/
def feedLine (i : Nat) (label : String) : String :=
  toString (i + 1) ++ ": " ++ label

/-- The highlight wrapper opening tag used for the active row
(src/main.go:166). -/
def spanOpen : String :=
  "<span foreground=" ++ apos ++ "#ff5555" ++ apos ++ ">"

/-- The highlight wrapper closing tag. -/
def spanClose : String :=
  "</span>"

/-- One rendered wofi line (src/main.go:165-169): the feed line, wrapped in
the highlight markup exactly when `i` is the active index. -/
def renderLine (names : List String) (dyn : Bool) (sc : Nat) (activeIdx : Int)
    (i : Nat) : String :=
  let line := feedLine i (mergedLabel names dyn sc i)
  if (i : Int) = activeIdx then spanOpen ++ line ++ spanClose else line

/-- The full wofi feed of `wofiIntegration` (src/main.go:155-170): one line
per `i in [0, sc)`. -/
def wofiLines (names : List String) (dyn : Bool) (sc : Nat) (activeIdx : Int) :
    List String :=
  (List.range sc).map (renderLine names dyn sc activeIdx)

/-- The Shift-J reorder handler of the TUI list (src/main.go:427-435): with
the cursor at row `i` of `itemCount` displayed rows, when `i < itemCount-1`
it swaps `cfg.Names[i]` and `cfg.Names[i+1]`, saves, and re-focuses row
`i+1`; otherwise it is a no-op.  The Go index expressions panic when they
reach outside `cfg.Names`; the embedding returns `none` there.  Result:
final names, effect trace, new cursor position. -/
def reorderDown (names : List String) (itemCount i : Nat) :
    Option (List String × List Effect × Nat) :=
  if i < itemCount - 1 then
    match names[i]?, names[i + 1]? with
    | some a, some b =>
      let swapped := (names.set i b).set (i + 1) a
      some (swapped, [Effect.saveFile swapped], i + 1)
    | _, _ => none
  else
    some (names, [], i)

/-- The Shift-K reorder handler (src/main.go:436-444): when `i > 0` it swaps
`cfg.Names[i]` and `cfg.Names[i-1]`, saves, and re-focuses row `i-1`;
`none` models the panic on an out-of-range index. -/
def reorderUp (names : List String) (i : Nat) :
    Option (List String × List Effect × Nat) :=
  if 0 < i then
    match names[i]?, names[i - 1]? with
    | some a, some b =>
      let swapped := (names.set i b).set (i - 1) a
      some (swapped, [Effect.saveFile swapped], i - 1)
    | _, _ => none
  else
    some (names, [], i)

/-- Modelled from the spec: the YAML escaping of one character inside a
double-quoted scalar, for the serialization that `saveConfig`
(src/main.go:45-54) delegates to the external yaml library, which is not
part of this repository. -/
def escapeChar (c : Char) : List Char :=
  if c = Char.ofNat 92 then [Char.ofNat 92, Char.ofNat 92]
  else if c = Char.ofNat 34 then [Char.ofNat 92, Char.ofNat 34]
  else if c = '\n' then [Char.ofNat 92, 'n']
  else [c]

/-- Modelled from the spec: escaping of a whole scalar. -/
def escapeList : List Char → List Char
  | [] => []
  | c :: rest => escapeChar c ++ escapeList rest

/-- Modelled from the spec: the inverse of `escapeChar` on the character
following a backslash. -/
def unescapeCode (c : Char) : Char :=
  if c = 'n' then '\n' else c

/-- Modelled from the spec: parse the remainder of a double-quoted scalar up
to its closing quote, which must end the token; `none` on a malformed
token. -/
def unquote : List Char → Option (List Char)
  | [] => none
  | c :: rest =>
    if c = Char.ofNat 34 then
      if rest = [] then some [] else none
    else if c = Char.ofNat 92 then
      match rest with
      | [] => none
      | d :: rest2 => (unquote rest2).map (fun l => unescapeCode d :: l)
    else
      (unquote rest).map (fun l => c :: l)

/-- Modelled from the spec: a scalar can be emitted plain when it has no
newline and does not begin with a double quote; otherwise it is
double-quoted. -/
def plainSafe (l : List Char) : Prop :=
  '\n' ∉ l ∧ l.head? ≠ some (Char.ofNat 34)

instance (l : List Char) : Decidable (plainSafe l) := by
  unfold plainSafe
  infer_instance

/-- Modelled from the spec: emit one scalar, plain or double-quoted. -/
def encodeName (l : List Char) : List Char :=
  if plainSafe l then l else Char.ofNat 34 :: (escapeList l ++ [Char.ofNat 34])

/-- Modelled from the spec: read one scalar back. -/
def decodeName (rest : List Char) : Option (List Char) :=
  match rest with
  | c :: more => if c = Char.ofNat 34 then unquote more else some rest
  | [] => some []

/-- Modelled from the spec: one block-sequence item line, `"    - "` plus the
encoded scalar. -/
def itemLine (l : List Char) : List Char :=
  ' ' :: ' ' :: ' ' :: ' ' :: '-' :: ' ' :: encodeName l

/-- Modelled from the spec: all item lines, each terminated by a newline. -/
def itemsChars : List String → List Char
  | [] => []
  | s :: rest => itemLine s.data ++ '\n' :: itemsChars rest

/-- The stable key of the configuration document (`yaml:"workspace_names"`,
src/main.go:25). -/
def headerChars : List Char :=
  "workspace_names:".data

/-- The document emitted for an empty name list. -/
def emptyDocChars : List Char :=
  "workspace_names: []".data

/-- `saveConfig` (src/main.go:45-54) as the byte content written to the
configuration file (the `MkdirAll`/`WriteFile` file-system part is outside
the embedding; serialization is modelled from the spec, see above). -/
def saveConfig (names : List String) : String :=
  if names = [] then
    String.mk (emptyDocChars ++ ['\n'])
  else
    String.mk (headerChars ++ '\n' :: itemsChars names)

/-- Modelled from the spec: parse one item line. -/
def parseItemLine (line : List Char) : Option (List Char) :=
  match line with
  | ' ' :: ' ' :: ' ' :: ' ' :: '-' :: ' ' :: rest => decodeName rest
  | _ => none

/-- Modelled from the spec: parse all item lines. -/
def parseItemLines : List (List Char) → Option (List String)
  | [] => some []
  | line :: rest =>
    match parseItemLine line, parseItemLines rest with
    | some name, some names => some (String.mk name :: names)
    | _, _ => none

/-- Modelled from the spec: parse the document's lines: the key header, then
the item lines, with the trailing empty piece left by the final newline. -/
def loadPieces : List (List Char) → Option (List String)
  | header :: rest =>
    if header = emptyDocChars then
      if rest = [[]] then some [] else none
    else if header = headerChars then
      match rest.getLast? with
      | some [] => parseItemLines rest.dropLast
      | _ => none
    else
      none
  | [] => none

/-- `loadConfig` (src/main.go:33-43) on an existing file with the given byte
content: unmarshal the document into the name list (the missing-file
first-run path and the file read are outside the embedding; parsing is
modelled from the spec). -/
def loadConfig (b : String) : Option (List String) :=
  loadPieces (splitOnChar '\n' b.data)

end Gnav

namespace Gnav

-- Basic lemmas about the padding loop.

theorem padNames_length (names : List String) (n : Nat) :
    (padNames names n).length = max names.length n := by
  rw [padNames]
  split
  · rw [padNames_length]
    simp
    omega
  · omega
termination_by n - names.length
decreasing_by simp; omega

theorem padNames_get_lt (names : List String) (n : Nat) (i : Nat)
    (h : i < names.length) :
    (padNames names n)[i]? = names[i]? := by
  rw [padNames]
  split
  · rw [padNames_get_lt]
    · exact List.getElem?_append_left h
    · simp; omega
  · rfl
termination_by n - names.length
decreasing_by simp; omega

theorem padNames_get_pad (names : List String) (n : Nat) (i : Nat)
    (h1 : names.length ≤ i) (h2 : i < n) :
    (padNames names n)[i]? = some (defaultName (i + 1)) := by
  rw [padNames]
  split
  · rcases Nat.eq_or_lt_of_le h1 with heq | hlt
    · rw [padNames_get_lt]
      · simp [heq]
      · simp; omega
    · rw [padNames_get_pad]
      · simp; omega
      · omega
  · omega
termination_by n - names.length
decreasing_by all_goals simp; omega

/-- C1: for every `index ≥ 1` and non-empty `name`, `rename(index, name)` pads
the stored list with synthesized defaults "Workspace k" up to length `index`
if shorter, sets position `index-1` to `name`, and persists exactly that list,
so the store afterwards yields `name` at `index-1` and the synthesized default
at every newly padded slot. -/
theorem C1_rename_pads_sets_persists
    (names : List String) (index : Int) (name : String)
    (h1 : 1 ≤ index) (_h2 : name ≠ "") :
    ∃ updated,
      renameLocal names index name = (.ok (), updated, [Effect.saveFile updated]) ∧
      updated[index.toNat - 1]? = some name ∧
      updated.length = max names.length index.toNat ∧
      ∀ p, names.length ≤ p → p < index.toNat → p ≠ index.toNat - 1 →
        updated[p]? = some (defaultName (p + 1)) := by
  have hidx : 1 ≤ index.toNat := by omega
  rw [renameLocal, if_neg (by omega)]
  refine ⟨_, rfl, ?_, ?_, ?_⟩
  · exact List.getElem?_set_eq_of_lt name (by rw [padNames_length]; omega)
  · rw [List.length_set, padNames_length]
  · intro p hp1 hp2 hp3
    rw [List.getElem?_set_ne (Ne.symm hp3)]
    exact padNames_get_pad names index.toNat p hp1 hp2

/-- Witness for C1 at `names = ["A"]`, `index = 3`, `name = "B"`. -/
theorem C1_witness :
    ∃ updated,
      renameLocal ["A"] 3 "B" = (.ok (), updated, [Effect.saveFile updated]) ∧
      updated[(3:Int).toNat - 1]? = some "B" ∧
      updated.length = max ["A"].length (3:Int).toNat ∧
      ∀ p, ["A"].length ≤ p → p < (3:Int).toNat → p ≠ (3:Int).toNat - 1 →
        updated[p]? = some (defaultName (p + 1)) :=
  C1_rename_pads_sets_persists ["A"] 3 "B" (by decide) (by decide)

/-- C10: `rename(index, name)` with `index ≥ 1` leaves every previously
existing position other than `index-1` unchanged, and the resulting length is
the maximum of the previous length and `index`; no entry is removed. -/
theorem C10_rename_frame
    (names : List String) (index : Int) (name : String) (h1 : 1 ≤ index) :
    ∃ updated effs,
      renameLocal names index name = (.ok (), updated, effs) ∧
      updated.length = max names.length index.toNat ∧
      ∀ p, p < names.length → p ≠ index.toNat - 1 → updated[p]? = names[p]? := by
  rw [renameLocal, if_neg (by omega)]
  refine ⟨_, _, rfl, ?_, ?_⟩
  · rw [List.length_set, padNames_length]
  · intro p hp1 hp2
    rw [List.getElem?_set_ne (Ne.symm hp2)]
    exact padNames_get_lt names index.toNat p hp1

/-- Witness for C10 at `names = ["A", "B"]`, `index = 1`, `name = "C"`. -/
theorem C10_witness :
    ∃ updated effs,
      renameLocal ["A", "B"] 1 "C" = (.ok (), updated, effs) ∧
      updated.length = max ["A", "B"].length (1:Int).toNat ∧
      ∀ p, p < ["A", "B"].length → p ≠ (1:Int).toNat - 1 →
        updated[p]? = ["A", "B"][p]? :=
  C10_rename_frame ["A", "B"] 1 "C" (by decide)

/-- C2: for every `count ≥ 1` with a successful system-count probe,
`create(count)` yields a stored list of length `≥ count` that preserves every
previously stored name, removing nothing even when `count` is smaller than
the current stored length. -/
theorem C2_create_grows
    (names : List String) (num : Int) (sc : Nat) (w1 w2 : Bool) (h : 1 ≤ num) :
    ∃ updated effs,
      createWorkspaces names num (.ok sc) w1 w2 = (.ok (), updated, effs) ∧
      num.toNat ≤ updated.length ∧
      names.length ≤ updated.length ∧
      ∀ p, p < names.length → updated[p]? = names[p]? := by
  rw [createWorkspaces, if_neg (by omega)]
  refine ⟨_, _, rfl, ?_, ?_, ?_⟩
  · rw [padNames_length]; omega
  · rw [padNames_length]; omega
  · intro p hp
    exact padNames_get_lt names num.toNat p hp

/-- Witness for C2 at `names = ["A", "B", "C"]`, `count = 2`, probe `.ok 4`. -/
theorem C2_witness :
    ∃ updated effs,
      createWorkspaces ["A", "B", "C"] 2 (.ok 4) true false = (.ok (), updated, effs) ∧
      (2:Int).toNat ≤ updated.length ∧
      ["A", "B", "C"].length ≤ updated.length ∧
      ∀ p, p < ["A", "B", "C"].length → updated[p]? = ["A", "B", "C"][p]? :=
  C2_create_grows ["A", "B", "C"] 2 4 true false (by decide)

/-- C3: `rename`, `switch` and `create` reject `index < 1` / `count < 1` with
a validation error, leaving the name list untouched and issuing no effect at
all: no config write, no probe, no external process invocation. -/
theorem C3_validation_no_side_effects
    (names : List String) (index count : Int) (name : String) (runOk : Bool)
    (hi : index < 1) (hc : count < 1) :
    renameLocal names index name = (.error .invalidIndex, names, []) ∧
    switchWorkspace index runOk = (.error .invalidIndex, []) ∧
    ∀ probe w1 w2,
      createWorkspaces names count probe w1 w2 = (.error .invalidCount, names, []) := by
  refine ⟨?_, ?_, ?_⟩
  · rw [renameLocal, if_pos hi]
  · rw [switchWorkspace, if_pos hi]
  · intro probe w1 w2
    rw [createWorkspaces.eq_def, if_pos hc]

/-- Witness for C3 at `index = 0`, `count = -2`. -/
theorem C3_witness :
    renameLocal ["A"] 0 "B" = (.error .invalidIndex, ["A"], []) ∧
    switchWorkspace 0 true = (.error .invalidIndex, []) ∧
    ∀ probe w1 w2,
      createWorkspaces ["A"] (-2) probe w1 w2 = (.error .invalidCount, ["A"], []) :=
  C3_validation_no_side_effects ["A"] 0 (-2) "B" true (by decide) (by decide)

/-- Evaluation of `createWorkspaces` when validation passes and the probe
succeeds: the result is `ok`, the list is padded, and the trace is the probe,
the conditional settings writes, and the save, independently of the write
outcomes. -/
theorem createWorkspaces_eq_ok (names : List String) (num : Int) (sc : Nat)
    (w1 w2 : Bool) (h0 : ¬ num < 1) :
    createWorkspaces names num (.ok sc) w1 w2 =
      (.ok (), padNames names num.toNat,
       Effect.probeCount ::
         (if sc < num.toNat then
            [Effect.gsetNumWorkspaces num.toNat, Effect.gsetDynamicOff]
          else []) ++
         [Effect.saveFile (padNames names num.toNat)]) := by
  simp only [createWorkspaces, if_neg h0]

/-- C5: for `i` in `[0, liveCount)` the row label is the stored name when
present, else the synthesized default; with the dynamic flag set the last
row's label is the sentinel regardless of stored names; exactly the row at
the active index gets the highlight wrapper around its feed line
`"i+1: label"`; and the concrete instance with live count 3, names
`["Web","Chat"]`, active index 1, dynamic flag off renders
`"1: Web"`, `"2: Chat"` (wrapped), `"3: Workspace 3"`. -/
theorem C5_wofi_rendering :
    (∀ (names : List String) (dyn : Bool) (sc i : Nat), i < sc →
      ¬(dyn = true ∧ i = sc - 1) →
      mergedLabel names dyn sc i = (names[i]?).getD (defaultName (i + 1))) ∧
    (∀ (names : List String) (sc : Nat), 1 ≤ sc →
      mergedLabel names true sc (sc - 1) = "New Workspace") ∧
    (∀ (names : List String) (dyn : Bool) (sc : Nat) (activeIdx : Int) (i : Nat),
      ((i : Int) = activeIdx →
        renderLine names dyn sc activeIdx i =
          spanOpen ++ feedLine i (mergedLabel names dyn sc i) ++ spanClose) ∧
      ((i : Int) ≠ activeIdx →
        renderLine names dyn sc activeIdx i =
          feedLine i (mergedLabel names dyn sc i))) ∧
    wofiLines ["Web", "Chat"] false 3 1 =
      ["1: Web", spanOpen ++ "2: Chat" ++ spanClose, "3: Workspace 3"] := by
  refine ⟨?_, ?_, ?_, by rfl⟩
  · intro names dyn sc i _ hnot
    have hcond : ¬(dyn && i == sc - 1) = true := by
      simp only [Bool.and_eq_true, beq_iff_eq, not_and]
      intro hd heq
      exact hnot ⟨hd, heq⟩
    rw [mergedLabel]
    simp only [if_neg hcond]
    by_cases hi : i < names.length
    · simp [hi, List.getElem?_eq_getElem]
    · simp [hi, List.getElem?_eq_none (Nat.le_of_not_lt hi)]
  · intro names sc _
    rw [mergedLabel]
    simp
  · intro names dyn sc activeIdx i
    constructor
    · intro h
      rw [renderLine]
      simp only [if_pos h]
    · intro h
      rw [renderLine]
      simp only [if_neg h]

/-- Witness for C5: the dynamic override at `names = ["X"]`, `sc = 3`. -/
theorem C5_witness : mergedLabel ["X"] true 3 (3 - 1) = "New Workspace" :=
  C5_wofi_rendering.2.1 ["X"] 3 (by decide)

-- Round-trip lemmas for the modelled configuration serialization.

theorem escapeChar_no_newline (c : Char) : '\n' ∉ escapeChar c := by
  rw [escapeChar]
  by_cases h1 : c = Char.ofNat 92
  · rw [if_pos h1]; decide
  · rw [if_neg h1]
    by_cases h2 : c = Char.ofNat 34
    · rw [if_pos h2]; decide
    · rw [if_neg h2]
      by_cases h3 : c = '\n'
      · rw [if_pos h3]; decide
      · rw [if_neg h3]
        simp only [List.mem_singleton]
        exact fun he => h3 he.symm

theorem escapeList_no_newline (l : List Char) : '\n' ∉ escapeList l := by
  induction l with
  | nil => simp [escapeList]
  | cons c rest ih =>
    simp only [escapeList, List.mem_append]
    rintro (h | h)
    · exact escapeChar_no_newline c h
    · exact ih h

theorem unquote_cons_escape (d : Char) (rest : List Char) :
    unquote (Char.ofNat 92 :: d :: rest) =
      (unquote rest).map (fun l => unescapeCode d :: l) := rfl

theorem unquote_cons_plain (c : Char) (rest : List Char)
    (h1 : c ≠ Char.ofNat 34) (h2 : c ≠ Char.ofNat 92) :
    unquote (c :: rest) = (unquote rest).map (fun l => c :: l) := by
  rw [unquote.eq_def]
  simp only [if_neg h1, if_neg h2]

theorem unquote_escapeList (l : List Char) :
    unquote (escapeList l ++ [Char.ofNat 34]) = some l := by
  induction l with
  | nil =>
    rw [escapeList]
    decide
  | cons c rest ih =>
    rw [escapeList, escapeChar]
    by_cases h1 : c = Char.ofNat 92
    · rw [if_pos h1]
      simp only [List.cons_append, List.nil_append]
      rw [unquote_cons_escape, ih]
      simp [unescapeCode, h1]
    · rw [if_neg h1]
      by_cases h2 : c = Char.ofNat 34
      · rw [if_pos h2]
        simp only [List.cons_append, List.nil_append]
        rw [unquote_cons_escape, ih]
        simp [unescapeCode, h2]
      · by_cases h3 : c = '\n'
        · rw [if_neg h2, if_pos h3]
          simp only [List.cons_append, List.nil_append]
          rw [unquote_cons_escape, ih]
          simp [unescapeCode, h3]
        · rw [if_neg h2, if_neg h3]
          simp only [List.cons_append, List.nil_append]
          rw [unquote_cons_plain c _ h2 h1, ih]
          rfl

theorem decodeName_encodeName (l : List Char) :
    decodeName (encodeName l) = some l := by
  rw [encodeName]
  by_cases h : plainSafe l
  · rw [if_pos h]
    cases l with
    | nil => rfl
    | cons c more =>
      have hc : ¬ c = Char.ofNat 34 := by
        intro he
        exact h.2 (by simp [he])
      rw [decodeName, if_neg hc]
  · rw [if_neg h, decodeName, if_pos rfl]
    exact unquote_escapeList l

theorem encodeName_no_newline (l : List Char) : '\n' ∉ encodeName l := by
  rw [encodeName]
  by_cases h : plainSafe l
  · rw [if_pos h]
    exact h.1
  · rw [if_neg h]
    intro hmem
    rcases List.mem_cons.mp hmem with he | hmem2
    · exact absurd he (by decide)
    · rcases List.mem_append.mp hmem2 with h3 | h4
      · exact escapeList_no_newline l h3
      · simp at h4

theorem parseItemLine_itemLine (l : List Char) :
    parseItemLine (itemLine l) = some l := by
  rw [itemLine, parseItemLine]
  exact decodeName_encodeName l

theorem itemLine_no_newline (l : List Char) : '\n' ∉ itemLine l := by
  rw [itemLine]
  intro hmem
  simp only [List.mem_cons] at hmem
  rcases hmem with h | h | h | h | h | h | h
  all_goals first
    | exact absurd h (by decide)
    | exact encodeName_no_newline l h

theorem splitOnChar_chunk (sep : Char) (chunk rest : List Char)
    (h : sep ∉ chunk) :
    splitOnChar sep (chunk ++ sep :: rest) = chunk :: splitOnChar sep rest := by
  induction chunk with
  | nil =>
    simp [splitOnChar]
  | cons c cs ih =>
    have hc : ¬ c = sep := fun he => h (by simp [he])
    simp only [List.cons_append, splitOnChar, if_neg hc, List.append_eq]
    rw [ih (fun hm => h (List.mem_cons_of_mem c hm))]

theorem splitOnChar_itemsChars (names : List String) :
    splitOnChar '\n' (itemsChars names) =
      (names.map (fun s => itemLine s.data)) ++ [[]] := by
  induction names with
  | nil => simp [itemsChars, splitOnChar]
  | cons s rest ih =>
    rw [itemsChars, splitOnChar_chunk '\n' _ _ (itemLine_no_newline s.data), ih]
    simp

theorem parseItemLines_map (names : List String) :
    parseItemLines (names.map (fun s => itemLine s.data)) = some names := by
  induction names with
  | nil => rfl
  | cons s rest ih =>
    simp only [List.map_cons, parseItemLines]
    rw [parseItemLine_itemLine, ih]

/-- C6: loading a configuration file just written by save yields exactly the
saved name list, so saving the loaded list again produces byte-identical
file contents, for every name list. -/
theorem C6_save_load_idempotent (names : List String) :
    loadConfig (saveConfig names) = some names ∧
    ∀ loaded, loadConfig (saveConfig names) = some loaded →
      saveConfig loaded = saveConfig names := by
  have hload : loadConfig (saveConfig names) = some names := by
    cases names with
    | nil => rfl
    | cons s rest =>
      rw [saveConfig, if_neg (by simp)]
      have hdata : (String.mk (headerChars ++ '\n' :: itemsChars (s :: rest))).data
          = headerChars ++ '\n' :: itemsChars (s :: rest) := rfl
      have hsplit : splitOnChar '\n'
            (String.mk (headerChars ++ '\n' :: itemsChars (s :: rest))).data
          = headerChars ::
              (((s :: rest).map (fun t => itemLine t.data)) ++ [[]]) := by
        rw [hdata, splitOnChar_chunk '\n' headerChars _ (by decide),
          splitOnChar_itemsChars]
      rw [loadConfig, hsplit, loadPieces]
      rw [if_neg (by decide), if_pos rfl, List.getLast?_concat,
        List.dropLast_concat]
      exact parseItemLines_map (s :: rest)
  refine ⟨hload, ?_⟩
  intro loaded h
  rw [hload] at h
  cases h
  rfl

/-- Witness for C6 at `names = ["Web", "Chat"]`. -/
theorem C6_witness :
    loadConfig (saveConfig ["Web", "Chat"]) = some ["Web", "Chat"] :=
  (C6_save_load_idempotent ["Web", "Chat"]).1

/-- C8: the reorder keypresses index `cfg.Names` with displayed-row
positions, but the displayed row count is the live system count, which can
exceed the stored list's length: at stored names `["Web", "Chat"]` with 3
displayed rows, cursor row 1 has a lower neighbor yet reorder-down reads
`cfg.Names[2]` out of bounds (the modeled handler hits the panic case), and
cursor row 2 likewise panics on reorder-up. -/
theorem C8_reorder_out_of_bounds :
    reorderDown ["Web", "Chat"] 3 1 = none ∧
    reorderUp ["Web", "Chat"] 2 = none := by
  constructor <;> rfl

/-- C7: during `create(count)` with a successful probe of system count `sc`,
the two settings writes appear in the effect trace iff `count` exceeds `sc`,
and whatever the outcomes of those writes, `create` still succeeds, pads the
list, and persists it: its whole behavior is independent of the write
outcomes. -/
theorem C7_create_settings_best_effort
    (names : List String) (num : Int) (sc : Nat) (w1 w2 : Bool) (h : 1 ≤ num) :
    ((Effect.gsetNumWorkspaces num.toNat ∈ (createWorkspaces names num (.ok sc) w1 w2).2.2 ∧
      Effect.gsetDynamicOff ∈ (createWorkspaces names num (.ok sc) w1 w2).2.2) ↔
      sc < num.toNat) ∧
    (createWorkspaces names num (.ok sc) w1 w2).1 = .ok () ∧
    (createWorkspaces names num (.ok sc) w1 w2).2.1 = padNames names num.toNat ∧
    Effect.saveFile (padNames names num.toNat) ∈
      (createWorkspaces names num (.ok sc) w1 w2).2.2 ∧
    createWorkspaces names num (.ok sc) w1 w2 =
      createWorkspaces names num (.ok sc) true true := by
  have h0 : ¬ num < 1 := by omega
  rw [createWorkspaces_eq_ok names num sc w1 w2 h0,
    createWorkspaces_eq_ok names num sc true true h0]
  by_cases hgt : sc < num.toNat
  · rw [if_pos hgt]
    exact ⟨⟨fun _ => hgt, fun _ => ⟨by simp, by simp⟩⟩, rfl, rfl, by simp, rfl⟩
  · rw [if_neg hgt]
    refine ⟨⟨?_, fun hlt => absurd hlt hgt⟩, rfl, rfl, by simp, rfl⟩
    rintro ⟨hmem, -⟩
    simp at hmem

/-- Go `strings.Split` never returns an empty slice. -/
theorem splitOnChar_ne_nil (sep : Char) (l : List Char) :
    splitOnChar sep l ≠ [] := by
  cases l with
  | nil => simp [splitOnChar]
  | cons c cs =>
    simp only [splitOnChar]
    split
    · simp
    · split <;> simp

/-- The number of pieces `strings.Split` returns is the separator count plus
one. -/
theorem length_splitOnChar (sep : Char) (l : List Char) :
    (splitOnChar sep l).length = l.count sep + 1 := by
  induction l with
  | nil => simp [splitOnChar]
  | cons c cs ih =>
    by_cases hc : c = sep
    · subst hc
      simp [splitOnChar, List.count_cons, ih]
    · simp only [splitOnChar, if_neg hc]
      cases hsplit : splitOnChar sep cs with
      | nil => exact absurd hsplit (splitOnChar_ne_nil sep cs)
      | cons h t =>
        rw [hsplit] at ih
        simp only [List.length_cons] at ih ⊢
        simp [List.count_cons, hc, Ne.symm hc]
        omega

/-- `splitFirst` finds nothing exactly when the separator is absent
(`len(parts) < 2` in the Go code). -/
theorem splitFirst_eq_none_iff (sep : Char) (l : List Char) :
    splitFirst sep l = none ↔ sep ∉ l := by
  induction l with
  | nil => simp [splitFirst]
  | cons c cs ih =>
    by_cases hc : c = sep
    · subst hc
      simp [splitFirst]
    · simp only [splitFirst, if_neg hc]
      cases h : splitFirst sep cs with
      | none =>
        simp only [List.mem_cons]
        constructor
        · rintro - (heq | hmem)
          · exact hc heq.symm
          · exact (ih.mp h) hmem
        · intro _
          trivial
      | some p =>
        have hmem : sep ∈ cs := by
          by_contra hn
          rw [ih.mpr hn] at h
          cases h
        simp [List.mem_cons, hmem]

/-- C9: whenever the workspace-listing command succeeds,
`getSystemWorkspaceCount` returns the number of pieces the trimmed output
splits into on newlines, which is its newline count plus one — hence at least
1 for every output text, including empty output. -/
theorem C9_system_count_ge_one (out : String) :
    getSystemWorkspaceCount out = (goTrimSpace out).data.count '\n' + 1 ∧
    1 ≤ getSystemWorkspaceCount out := by
  constructor
  · exact length_splitOnChar '\n' (goTrimSpace out).data
  · rw [getSystemWorkspaceCount, length_splitOnChar]
    omega

/-- Witness for C9 at the empty output. -/
theorem C9_witness :
    getSystemWorkspaceCount "" = (goTrimSpace "").data.count '\n' + 1 ∧
    1 ≤ getSystemWorkspaceCount "" :=
  C9_system_count_ge_one ""

/-- C4: selection parsing splits on the first colon, trims whitespace from
the index token and yields the 1-based index; it fails whenever the trimmed
line has no colon.  `"3: Editor"` parses to 3, `"no colon here"` fails with
the format error, `"  2 :  Build "` parses to 2. -/
theorem C4_parse_selection :
    (∀ line : String, ':' ∉ trimChars line.data →
      ∃ e, parseSelection line = .error e) ∧
    parseSelection "3: Editor" = .ok 3 ∧
    parseSelection "no colon here" = .error .invalidFormat ∧
    parseSelection "  2 :  Build " = .ok 2 := by
  refine ⟨?_, by rfl, by rfl, by rfl⟩
  intro line hno
  simp only [parseSelection]
  by_cases ht : trimChars line.data = []
  · rw [if_pos ht]
    exact ⟨.emptyInput, rfl⟩
  · rw [if_neg ht, (splitFirst_eq_none_iff ':' _).mpr hno]
    exact ⟨.invalidFormat, rfl⟩

/-- Witness for C4: the no-colon branch of the theorem at a concrete line. -/
theorem C4_witness : ∃ e, parseSelection "just text" = .error e :=
  C4_parse_selection.1 "just text" (by decide)

/-- Witness for C7 at `names = ["A"]`, `count = 3`, probe `.ok 2`, both
settings writes failing. -/
theorem C7_witness :
    ((Effect.gsetNumWorkspaces (3:Int).toNat ∈ (createWorkspaces ["A"] 3 (.ok 2) false false).2.2 ∧
      Effect.gsetDynamicOff ∈ (createWorkspaces ["A"] 3 (.ok 2) false false).2.2) ↔
      2 < (3:Int).toNat) ∧
    (createWorkspaces ["A"] 3 (.ok 2) false false).1 = .ok () ∧
    (createWorkspaces ["A"] 3 (.ok 2) false false).2.1 = padNames ["A"] (3:Int).toNat ∧
    Effect.saveFile (padNames ["A"] (3:Int).toNat) ∈
      (createWorkspaces ["A"] 3 (.ok 2) false false).2.2 ∧
    createWorkspaces ["A"] 3 (.ok 2) false false =
      createWorkspaces ["A"] 3 (.ok 2) true true :=
  C7_create_settings_best_effort ["A"] 3 2 false false (by decide)

end Gnav
